import Mathlib

/-!
Verification of the yahoofinancials adaptive fetch/cache controller and
response decryption subsystem, shallowly embedded from the Python sources
`yahoofinancials/fetchurl.py`, `yahoofinancials/__init__.py` and
`yahoofinancials/decrypt.py`.

Machine-level effects are made explicit:
  - wall-clock time is not modelled; elapsed durations measured by the code
    are supplied as rational inputs;
  - random draws (the user-agent choice of `reset_headers`, jitter) are
    supplied as explicit inputs;
  - Python exceptions are modelled by an `Except PyError` result;
  - the module-level mutable globals (`_url_cache`, `_fstats`, `_interval`,
    `HEADERS`, `_fetch_start`) are collected in a `FetchState` record that is
    threaded explicitly.
-/

set_option maxRecDepth 4000

/-- Python exceptions that the modelled code can raise. -/
inductive PyError where
  /-- a bare `assert` failure (AssertionError) -/
  | assertionError
  /-- ValueError with its message -/
  | valueError (msg : String)
  /-- IndexError, e.g. `list.pop` from an empty list -/
  | indexError
  /-- KeyError for a missing mapping key -/
  | keyError (k : String)
  /-- a requests.Timeout or requests.HTTPError re-raised by `_fetch_url` -/
  | transportError (msg : String)
  /-- the DecryptException of `yahoofinancials.exceptions` -/
  | decryptException (msg : String)
  /-- the URLOpenException raised by `_fetch_finance` -/
  | urlOpenException (msg : String)
  deriving DecidableEq, Repr

/-! ### fetchurl.py: headers, stats, pacing -/

/-- fetchurl.py `VERSTR` -/
def VERSTR : String := "1.3"

/-- fetchurl.py `UAs`, the user-agent header options. -/
def UAs : List String := ["My User Agent", "World Wide Web"]

/-- fetchurl.py `reset_headers` assigns
`"%s %s" % (random.choice(UAs), VERSTR)`; the random draw is modelled by the
index `c` into the pool (taken modulo the pool size). -/
def mkUA (c : Nat) : String := UAs.getD (c % UAs.length) "" ++ " " ++ VERSTR

/-- fetchurl.py `_MIN_INTERVAL` -/
def MIN_INTERVAL : ℚ := 7
/-- fetchurl.py `_MAX_INTERVAL` -/
def MAX_INTERVAL : ℚ := 30
/-- fetchurl.py `_MORE_INTERVAL` -/
def MORE_INTERVAL : ℚ := 1.1
/-- fetchurl.py `_LESS_INTERVAL` -/
def LESS_INTERVAL : ℚ := 0.96
/-- fetchurl.py `READ_TIMEOUT` -/
def READ_TIMEOUT : Nat := 6
/-- fetchurl.py and __init__.py `READ_TRIES` -/
def READ_TRIES : Nat := 2

/-- one of the two buckets of `_fstats` (the value of key "pass" or "fail"). -/
structure Stats where
  num : Nat
  sum : ℚ
  avg : ℚ
  min : ℚ
  max : ℚ
  hist : List (Int × Nat)
  deriving DecidableEq, Repr

/-- the initial bucket value in `_fstats`. -/
def initStats : Stats :=
  { num := 0, sum := 0, avg := 0, min := 99, max := 0, hist := [] }

/-- fetchurl.py histogram bucket:
`histn = int(-(elapsed * 100000 // -10000))`, a primitive ceiling. -/
def histBucket (elapsed : ℚ) : Int := -(⌊elapsed * 100000 / (-10000 : ℚ)⌋)

/-- increment of `fs[hist][histn]`, on the histogram as an association list. -/
def bumpHist : List (Int × Nat) → Int → List (Int × Nat)
  | [], n => [(n, 1)]
  | p :: rest, n => if p.1 == n then (p.1, p.2 + 1) :: rest else p :: bumpHist rest n

/-- fetchurl.py `_fetch_stats_update(fs, elapsed)`. -/
def fetch_stats_update (fs : Stats) (elapsed : ℚ) : Stats :=
  let num := fs.num + 1
  let sum := fs.sum + elapsed
  { num := num
    sum := sum
    avg := sum / (num : ℚ)
    min := min fs.min elapsed
    max := max fs.max elapsed
    hist := bumpHist fs.hist (histBucket elapsed) }

/-- the module-level mutable state of fetchurl.py. `inFlight` is the length of
the `_fetch_start` list (its elements are wall-clock timestamps, which are not
modelled: the elapsed time obtained from them is supplied as input instead). -/
structure FetchState where
  urlCache : List (String × Nat × String)
  passStats : Stats
  failStats : Stats
  cachedCount : Nat
  interval : ℚ
  userAgent : String
  inFlight : Nat
  deriving DecidableEq, Repr

/-- state after module import: empty cache, zero stats,
`_interval = _MIN_INTERVAL`, headers set once by the initial `reset_headers`
call (random draw index 0). -/
def initState : FetchState :=
  { urlCache := []
    passStats := initStats
    failStats := initStats
    cachedCount := 0
    interval := MIN_INTERVAL
    userAgent := mkUA 0
    inFlight := 0 }

/-- effect of `_fetch_stats(cached=True)`. -/
def bumpCached (st : FetchState) : FetchState :=
  { st with cachedCount := st.cachedCount + 1 }

/-- effect of the `err` branch of `_fetch_stats`: pop the start timestamp,
update the fail bucket, grow `_interval` (capped at `_MAX_INTERVAL`), and call
`reset_headers` (random draw `uaChoice`). -/
def recordFailure (st : FetchState) (elapsed : ℚ) (uaChoice : Nat) : FetchState :=
  { st with
    failStats := fetch_stats_update st.failStats elapsed
    interval := min (st.interval * MORE_INTERVAL) MAX_INTERVAL
    userAgent := mkUA uaChoice
    inFlight := st.inFlight - 1 }

/-- effect of the final (success) branch of `_fetch_stats`: pop the start
timestamp, shrink `_interval` (floored at `_MIN_INTERVAL`) when the elapsed
time is below the running pass average, then update the pass bucket. -/
def recordSuccess (st : FetchState) (elapsed : ℚ) : FetchState :=
  { st with
    interval :=
      if elapsed < st.passStats.avg then max (st.interval * LESS_INTERVAL) MIN_INTERVAL
      else st.interval
    passStats := fetch_stats_update st.passStats elapsed
    inFlight := st.inFlight - 1 }

/-- the four ways `_fetch_stats` is invoked; `err` and `done` carry the elapsed
time measured from the popped start timestamp, `err` also carries the random
draw consumed by `reset_headers`. -/
inductive StatsCall where
  | cached
  | err (elapsed : ℚ) (uaChoice : Nat)
  | start
  | done (elapsed : ℚ)

/-- fetchurl.py `_fetch_stats(start, err, url, cached)`. Popping an empty
`_fetch_start` raises IndexError; an overlapping `start` raises ValueError. -/
def fetch_stats (st : FetchState) : StatsCall → Except PyError FetchState
  | .cached => .ok (bumpCached st)
  | .err elapsed uaChoice =>
      if st.inFlight = 0 then .error .indexError
      else .ok (recordFailure st elapsed uaChoice)
  | .start =>
      if st.inFlight = 0 then .ok { st with inFlight := st.inFlight + 1 }
      else .error (.valueError "_fetch_stats request overlap is not supported")
  | .done elapsed =>
      if st.inFlight = 0 then .error .indexError
      else .ok (recordSuccess st elapsed)

/-! ### C4: pacing interval invariant -/

/-- C4: the pacing interval stays within `[MIN_INTERVAL, MAX_INTERVAL]`; a
recorded success whose elapsed time is below the running pass average shrinks
the interval by the decay factor floored at MIN (never increasing it), and a
recorded failure grows it by the growth factor capped at MAX (never decreasing
it). -/
theorem pacing_interval_invariant (st : FetchState) (e : ℚ) (c : Nat)
    (hin : st.inFlight ≠ 0)
    (hlo : MIN_INTERVAL ≤ st.interval) (hhi : st.interval ≤ MAX_INTERVAL) :
    ∃ stf sts,
      fetch_stats st (.err e c) = .ok stf ∧
      fetch_stats st (.done e) = .ok sts ∧
      stf.interval = min (st.interval * MORE_INTERVAL) MAX_INTERVAL ∧
      MIN_INTERVAL ≤ stf.interval ∧ stf.interval ≤ MAX_INTERVAL ∧
      st.interval ≤ stf.interval ∧
      MIN_INTERVAL ≤ sts.interval ∧ sts.interval ≤ MAX_INTERVAL ∧
      (e < st.passStats.avg →
        sts.interval = max (st.interval * LESS_INTERVAL) MIN_INTERVAL ∧
        sts.interval ≤ st.interval) := by
  refine ⟨recordFailure st e c, recordSuccess st e, ?_, ?_, ?_, ?_, ?_, ?_, ?_, ?_, ?_⟩
  · simp [fetch_stats, hin]
  · simp [fetch_stats, hin]
  · rfl
  · show MIN_INTERVAL ≤ min (st.interval * MORE_INTERVAL) MAX_INTERVAL
    refine le_min ?_ (by norm_num [MIN_INTERVAL, MAX_INTERVAL])
    rw [MIN_INTERVAL, MORE_INTERVAL] at *
    nlinarith
  · exact min_le_right _ _
  · show st.interval ≤ min (st.interval * MORE_INTERVAL) MAX_INTERVAL
    refine le_min ?_ hhi
    rw [MORE_INTERVAL]
    rw [MIN_INTERVAL] at hlo
    nlinarith
  · show MIN_INTERVAL ≤ (recordSuccess st e).interval
    unfold recordSuccess
    dsimp only
    split
    · exact le_max_right _ _
    · exact hlo
  · show (recordSuccess st e).interval ≤ MAX_INTERVAL
    unfold recordSuccess
    dsimp only
    split
    · refine max_le ?_ (by norm_num [MIN_INTERVAL, MAX_INTERVAL])
      rw [LESS_INTERVAL]
      rw [MIN_INTERVAL] at hlo
      rw [MAX_INTERVAL] at hhi ⊢
      nlinarith
    · exact hhi
  · intro hbelow
    constructor
    · unfold recordSuccess
      dsimp only
      rw [if_pos hbelow]
    · show (recordSuccess st e).interval ≤ st.interval
      unfold recordSuccess
      dsimp only
      rw [if_pos hbelow]
      refine max_le ?_ hlo
      rw [LESS_INTERVAL]
      rw [MIN_INTERVAL] at hlo
      nlinarith

/-- C4 witness: the pacing invariant instantiated at the initial state with a
concrete elapsed time and user-agent draw. -/
theorem pacing_interval_invariant_witness :
    ∃ stf sts,
      fetch_stats { initState with inFlight := 1 } (.err 1 0) = .ok stf ∧
      fetch_stats { initState with inFlight := 1 } (.done 1) = .ok sts ∧
      stf.interval = min ({ initState with inFlight := 1 }.interval * MORE_INTERVAL) MAX_INTERVAL ∧
      MIN_INTERVAL ≤ stf.interval ∧ stf.interval ≤ MAX_INTERVAL ∧
      { initState with inFlight := 1 }.interval ≤ stf.interval ∧
      MIN_INTERVAL ≤ sts.interval ∧ sts.interval ≤ MAX_INTERVAL ∧
      ((1 : ℚ) < { initState with inFlight := 1 }.passStats.avg →
        sts.interval = max ({ initState with inFlight := 1 }.interval * LESS_INTERVAL) MIN_INTERVAL ∧
        sts.interval ≤ { initState with inFlight := 1 }.interval) :=
  pacing_interval_invariant { initState with inFlight := 1 } 1 0
    (by decide) (by norm_num [initState, MIN_INTERVAL])
    (by norm_num [initState, MIN_INTERVAL, MAX_INTERVAL])

/-! ### C9: user-agent rotation after failure -/

/-- concrete state used to refute the claim that the user-agent value after a
failure always differs from the value used on the failed attempt. -/
def uaCexState : FetchState := { initState with userAgent := mkUA 0, inFlight := 1 }

/-- C9 counterexample: recording a failure calls `reset_headers`, which draws a
random pool element; with draw index 0 against a failed attempt that used pool
element 0, the value after the rotation is identical to the value used on the
failed attempt, refuting the claim that it is never identical. -/
theorem ua_rotation_not_distinct_cex :
    Except.map (fun s => s.userAgent) (fetch_stats uaCexState (.err 1 0)) =
      Except.ok uaCexState.userAgent := by
  rfl

/-- C9 amended: after every recorded fetch failure the user-agent header is
re-assigned to a freshly drawn random element of the pool (rotation does
happen), but the draw is independent of the previous value, so the new value
may coincide with the one used on the failed attempt. -/
theorem ua_rotation_reassigned (st : FetchState) (e : ℚ) (c : Nat)
    (hin : st.inFlight ≠ 0) :
    ∃ st', fetch_stats st (.err e c) = .ok st' ∧ st'.userAgent = mkUA c := by
  refine ⟨recordFailure st e c, ?_, rfl⟩
  simp [fetch_stats, hin]

/-- C9 amended witness: the re-assignment instantiated at a concrete state and
draw. -/
theorem ua_rotation_reassigned_witness :
    ∃ st', fetch_stats uaCexState (.err 1 1) = .ok st' ∧ st'.userAgent = mkUA 1 :=
  ua_rotation_reassigned uaCexState 1 1 (by decide)

/-! ### fetchurl.py: the url cache and `_fetch_url` -/

/-- lookup `_url_cache[url]` on the cache as an association list. -/
def lookupCache (c : List (String × Nat × String)) (url : String) : Option (Nat × String) :=
  (c.find? (fun p => p.1 == url)).map (fun p => p.2)

/-- assignment `_url_cache[url] = v`: replace the entry in place if the key
exists, otherwise append it (Python dict insertion-order semantics). -/
def insertCache : List (String × Nat × String) → String → Nat × String → List (String × Nat × String)
  | [], url, v => [(url, v)]
  | p :: rest, url, v =>
      if p.1 == url then (url, v) :: rest else p :: insertCache rest url v

/-- outcome of the underlying `requests.get` call: an HTTP response, or a
raised requests.Timeout / requests.HTTPError. -/
inductive NetResult where
  | ok (status : Nat) (body : String)
  | exn (msg : String)

/-- the inputs a single `_fetch_url` call consumes from the environment: the
network outcome, the measured elapsed time and the random draw used by
`reset_headers` should the attempt fail. -/
structure FetchEnv where
  resp : NetResult
  elapsed : ℚ
  uaChoice : Nat

/-- result of one `_fetch_url` call: the returned value or raised error, the
state after the call, whether `requests.get` was invoked, and whether the
pacing delay `_be_nice` was executed. -/
structure FetchOutcome where
  result : Except PyError (Nat × String)
  state : FetchState
  netInvoked : Bool
  paced : Bool

/-- fetchurl.py `_fetch_url(url, activitycb)` (identical in structure to
`fetch_url` of __init__.py): serve from `_url_cache` counting a cached outcome
and skipping `_be_nice`; otherwise pace, record the start with
`_fetch_stats(start=True)` (which raises ValueError if a request is already in
flight), perform the network call, record the outcome, and cache the response
iff its status is below 500. The outcome-recording `_fetch_stats` calls are
inlined as `recordFailure` and `recordSuccess` because their pop of
`_fetch_start` cannot fail here: the successful start pushed an entry. The
`activitycb` invocations are pure liveness callbacks and are not modelled. -/
def fetch_url (st : FetchState) (url : String) (env : FetchEnv) : FetchOutcome :=
  match lookupCache st.urlCache url with
  | some r =>
      { result := .ok r, state := bumpCached st, netInvoked := false, paced := false }
  | none =>
    if st.inFlight ≠ 0 then
      { result := .error (.valueError "_fetch_stats request overlap is not supported")
        state := st, netInvoked := false, paced := true }
    else
      let st1 : FetchState := { st with inFlight := st.inFlight + 1 }
      match env.resp with
      | .exn m =>
          { result := .error (.transportError m)
            state := recordFailure st1 env.elapsed env.uaChoice
            netInvoked := true, paced := true }
      | .ok s b =>
        if s < 500 then
          let st2 := recordSuccess st1 env.elapsed
          { result := .ok (s, b)
            state := { st2 with urlCache := insertCache st2.urlCache url (s, b) }
            netInvoked := true, paced := true }
        else
          { result := .ok (s, b)
            state := recordFailure st1 env.elapsed env.uaChoice
            netInvoked := true, paced := true }

theorem find_insertCache (c : List (String × Nat × String)) (url : String) (v : Nat × String) :
    List.find? (fun p => p.1 == url) (insertCache c url v) = some (url, v) := by
  induction c with
  | nil => simp [insertCache, List.find?]
  | cons p rest ih =>
    by_cases h : p.1 = url
    · simp [insertCache, List.find?, h]
    · have hb : (p.1 == url) = false := by simp [h]
      simp only [insertCache, hb, Bool.false_eq_true, if_false, List.find?]
      exact ih

theorem lookup_insertCache (c : List (String × Nat × String)) (url : String) (v : Nat × String) :
    lookupCache (insertCache c url v) url = some v := by
  simp [lookupCache, find_insertCache]

theorem recordFailure_urlCache (st : FetchState) (e : ℚ) (c : Nat) :
    (recordFailure st e c).urlCache = st.urlCache := rfl

theorem recordSuccess_urlCache (st : FetchState) (e : ℚ) :
    (recordSuccess st e).urlCache = st.urlCache := rfl

theorem fetch_url_hit (st : FetchState) (url : String) (env : FetchEnv) (r : Nat × String)
    (h : lookupCache st.urlCache url = some r) :
    fetch_url st url env =
      { result := .ok r, state := bumpCached st, netInvoked := false, paced := false } := by
  unfold fetch_url
  rw [h]

theorem fetch_url_miss_ok_lt (st : FetchState) (url : String) (env : FetchEnv)
    (s : Nat) (b : String)
    (hm : lookupCache st.urlCache url = none) (hin : st.inFlight = 0)
    (hr : env.resp = .ok s b) (hs : s < 500) :
    fetch_url st url env =
      { result := .ok (s, b)
        state :=
          { recordSuccess { st with inFlight := st.inFlight + 1 } env.elapsed with
            urlCache := insertCache st.urlCache url (s, b) }
        netInvoked := true, paced := true } := by
  unfold fetch_url
  rw [hm, hr]
  simp [hin, hs]
  rfl

theorem fetch_url_miss_ok_ge (st : FetchState) (url : String) (env : FetchEnv)
    (s : Nat) (b : String)
    (hm : lookupCache st.urlCache url = none) (hin : st.inFlight = 0)
    (hr : env.resp = .ok s b) (hs : ¬ s < 500) :
    fetch_url st url env =
      { result := .ok (s, b)
        state := recordFailure { st with inFlight := st.inFlight + 1 } env.elapsed env.uaChoice
        netInvoked := true, paced := true } := by
  unfold fetch_url
  rw [hm, hr]
  simp [hin, hs]

theorem fetch_url_miss_exn (st : FetchState) (url : String) (env : FetchEnv) (m : String)
    (hm : lookupCache st.urlCache url = none) (hin : st.inFlight = 0)
    (hr : env.resp = .exn m) :
    fetch_url st url env =
      { result := .error (.transportError m)
        state := recordFailure { st with inFlight := st.inFlight + 1 } env.elapsed env.uaChoice
        netInvoked := true, paced := true } := by
  unfold fetch_url
  rw [hm, hr]
  simp [hin]

/-- after a `_fetch_url` call that returned a status below 500, the cache holds
exactly that result under the url. -/
theorem fetch_url_ok_lookup (st : FetchState) (url : String) (env : FetchEnv)
    (s : Nat) (b : String)
    (h : (fetch_url st url env).result = .ok (s, b)) (hs : s < 500) :
    lookupCache (fetch_url st url env).state.urlCache url = some (s, b) := by
  cases hcache : lookupCache st.urlCache url with
  | some r =>
    rw [fetch_url_hit st url env r hcache] at h ⊢
    simp only [Except.ok.injEq] at h
    subst h
    simpa [bumpCached] using hcache
  | none =>
    by_cases hin : st.inFlight = 0
    · cases hr : env.resp with
      | exn m =>
        rw [fetch_url_miss_exn st url env m hcache hin hr] at h
        exact absurd h (by simp)
      | ok s' b' =>
        by_cases hs' : s' < 500
        · rw [fetch_url_miss_ok_lt st url env s' b' hcache hin hr hs'] at h ⊢
          simp only [Except.ok.injEq, Prod.mk.injEq] at h
          obtain ⟨rfl, rfl⟩ := h
          exact lookup_insertCache _ _ _
        · rw [fetch_url_miss_ok_ge st url env s' b' hcache hin hr hs'] at h
          simp only [Except.ok.injEq, Prod.mk.injEq] at h
          obtain ⟨rfl, rfl⟩ := h
          exact absurd hs hs'
    · have hov : fetch_url st url env =
          { result := .error (.valueError "_fetch_stats request overlap is not supported")
            state := st, netInvoked := false, paced := true } := by
        unfold fetch_url
        rw [hcache]
        simp [hin]
      rw [hov] at h
      exact absurd h (by simp)

/-! ### C1: the second call on a cached url returns the memoized result -/

/-- C1: after a first `_fetch_url` call on a url resolved with an HTTP status
below 500, a second call on the same url returns exactly the first call
result, does not invoke the network fetch (so the network is hit at most once
in total), is counted as a cached outcome, and bypasses the pacing delay. -/
theorem fetch_url_cached_second_call (st : FetchState) (url : String)
    (env1 env2 : FetchEnv) (s : Nat) (b : String)
    (h : (fetch_url st url env1).result = .ok (s, b)) (hs : s < 500) :
    (fetch_url (fetch_url st url env1).state url env2).result = .ok (s, b) ∧
    (fetch_url (fetch_url st url env1).state url env2).netInvoked = false ∧
    (fetch_url (fetch_url st url env1).state url env2).paced = false ∧
    (fetch_url (fetch_url st url env1).state url env2).state.cachedCount =
      (fetch_url st url env1).state.cachedCount + 1 ∧
    ((if (fetch_url st url env1).netInvoked then 1 else 0) +
      (if (fetch_url (fetch_url st url env1).state url env2).netInvoked then 1 else 0) ≤ 1) := by
  have hl := fetch_url_ok_lookup st url env1 s b h hs
  have h2 := fetch_url_hit (fetch_url st url env1).state url env2 (s, b) hl
  rw [h2]
  refine ⟨rfl, rfl, rfl, rfl, ?_⟩
  simp only [if_false, Bool.false_eq_true]
  split <;> omega

/-- C1 witness: a concrete first call on the empty-cache initial state with a
200 response, followed by a second call whose environment would answer 404. -/
theorem fetch_url_cached_second_call_witness :
    (fetch_url (fetch_url initState "u" ⟨.ok 200 "B", 1, 0⟩).state "u" ⟨.ok 404 "C", 1, 0⟩).result =
      .ok (200, "B") ∧
    (fetch_url (fetch_url initState "u" ⟨.ok 200 "B", 1, 0⟩).state "u" ⟨.ok 404 "C", 1, 0⟩).netInvoked = false ∧
    (fetch_url (fetch_url initState "u" ⟨.ok 200 "B", 1, 0⟩).state "u" ⟨.ok 404 "C", 1, 0⟩).paced = false ∧
    (fetch_url (fetch_url initState "u" ⟨.ok 200 "B", 1, 0⟩).state "u" ⟨.ok 404 "C", 1, 0⟩).state.cachedCount =
      (fetch_url initState "u" ⟨.ok 200 "B", 1, 0⟩).state.cachedCount + 1 ∧
    ((if (fetch_url initState "u" ⟨.ok 200 "B", 1, 0⟩).netInvoked then 1 else 0) +
      (if (fetch_url (fetch_url initState "u" ⟨.ok 200 "B", 1, 0⟩).state "u" ⟨.ok 404 "C", 1, 0⟩).netInvoked then 1 else 0) ≤ 1) :=
  fetch_url_cached_second_call initState "u" ⟨.ok 200 "B", 1, 0⟩ ⟨.ok 404 "C", 1, 0⟩
    200 "B" (by rfl) (by decide)

/-! ### C3: responses below 500 are cached, those at 500 and above are not -/

/-- C3: after a fetch that receives an HTTP response on a previously uncached
url, the (status, body) pair is stored in the url cache iff the status is
below 500; for a status of 500 or greater no entry is left, so a later call
invokes the network fetch again. -/
theorem fetch_url_cache_policy (st : FetchState) (url : String) (env : FetchEnv)
    (s : Nat) (b : String)
    (hmiss : lookupCache st.urlCache url = none) (hin : st.inFlight = 0)
    (hresp : env.resp = .ok s b) :
    (s < 500 → lookupCache (fetch_url st url env).state.urlCache url = some (s, b)) ∧
    (500 ≤ s →
      lookupCache (fetch_url st url env).state.urlCache url = none ∧
      ∀ env2, (fetch_url (fetch_url st url env).state url env2).netInvoked = true) := by
  constructor
  · intro hs
    rw [fetch_url_miss_ok_lt st url env s b hmiss hin hresp hs]
    exact lookup_insertCache _ _ _
  · intro hs
    have hns : ¬ s < 500 := by omega
    rw [fetch_url_miss_ok_ge st url env s b hmiss hin hresp hns]
    refine ⟨hmiss, ?_⟩
    intro env2
    set stf := recordFailure { st with inFlight := st.inFlight + 1 } env.elapsed env.uaChoice with hstf
    have hc : lookupCache stf.urlCache url = none := by
      rw [hstf, recordFailure_urlCache]
      exact hmiss
    have hfl : stf.inFlight = 0 := by
      simp [hstf, recordFailure, hin]
    cases hr2 : env2.resp with
    | exn m =>
      rw [fetch_url_miss_exn stf url env2 m hc hfl hr2]
    | ok s2 b2 =>
      by_cases hs2 : s2 < 500
      · rw [fetch_url_miss_ok_lt stf url env2 s2 b2 hc hfl hr2 hs2]
      · rw [fetch_url_miss_ok_ge stf url env2 s2 b2 hc hfl hr2 hs2]

/-- C3 witness: a 503 response on the initial state is not cached and a
follow-up call still hits the network. -/
theorem fetch_url_cache_policy_witness :
    ((503 : Nat) < 500 →
      lookupCache (fetch_url initState "u" ⟨.ok 503 "E", 1, 0⟩).state.urlCache "u" = some (503, "E")) ∧
    (500 ≤ 503 →
      lookupCache (fetch_url initState "u" ⟨.ok 503 "E", 1, 0⟩).state.urlCache "u" = none ∧
      ∀ env2, (fetch_url (fetch_url initState "u" ⟨.ok 503 "E", 1, 0⟩).state "u" env2).netInvoked = true) :=
  fetch_url_cache_policy initState "u" ⟨.ok 503 "E", 1, 0⟩ 503 "E" (by rfl) (by decide) (by rfl)

/-! ### __init__.py: the bounded retry loop of `_fetch_finance` -/

/-- outcome of `_fetch_finance`, together with how many times `fetch_url` was
invoked: `parsed` when a try returned 200 and the loop broke to parse the
page, `failed code` when the for-else branch raised URLOpenException carrying
the last received status code. -/
inductive FinanceOutcome where
  | parsed (fetches : Nat)
  | failed (lastCode : Nat) (fetches : Nat)
  deriving DecidableEq, Repr

/-- the `for tries in range(READ_TRIES)` loop body of `_fetch_finance`:
`remaining` counts the loop iterations still to run, `rescode` is the status of
the previous try (0 initially), `fetches` counts `fetch_url` invocations so
far, and `resp k` is the status code returned by the k-th `fetch_url`
invocation. A previous 404 short-circuits the iteration (continue) without
fetching; the inter-try backoff sleep is time-only and not modelled; when the
loop completes without a break, the for-else raises URLOpenException. -/
def finance_loop (resp : Nat → Nat) : Nat → Nat → Nat → FinanceOutcome
  | 0, rescode, fetches => .failed rescode fetches
  | remaining + 1, rescode, fetches =>
      if rescode = 404 then finance_loop resp remaining rescode fetches
      else
        let code := resp fetches
        if code = 200 then .parsed (fetches + 1)
        else finance_loop resp remaining code (fetches + 1)

/-- __init__.py `_fetch_finance(url)` with its try budget `READ_TRIES = 2`. -/
def fetch_finance (resp : Nat → Nat) : FinanceOutcome :=
  finance_loop resp READ_TRIES 0 0

/-! ### C5: a 404 on the first try suppresses the second try -/

/-- C5: when the first try of `_fetch_finance` returns HTTP status 404, no
second network attempt is made (exactly one `fetch_url` invocation in total):
the remaining try is run out via the continue branch and the operation fails
with the 404 code. -/
theorem fetch_finance_404_no_retry (resp : Nat → Nat) (h : resp 0 = 404) :
    fetch_finance resp = .failed 404 1 := by
  unfold fetch_finance READ_TRIES finance_loop
  simp [h]
  rfl

/-- C5 witness: the always-404 response sequence. -/
theorem fetch_finance_404_no_retry_witness :
    fetch_finance (fun _ => 404) = .failed 404 1 :=
  fetch_finance_404_no_retry (fun _ => 404) rfl

/-! ### decrypt.py: the OpenSSL EVP key derivation function -/

/-- the inner strengthening loop of `_EVPKDF`:
`for _ in range(1, iterations): block = hashlib.new(hashAlgorithm, block).digest()`,
that is, `n` further digest applications. -/
def hashIter (hash : List Nat → List Nat) : Nat → List Nat → List Nat
  | 0, b => b
  | n + 1, b => hashIter hash n (hash b)

/-- the `while len(key_iv) < final_length` loop of `_EVPKDF`. The digest of
the previous round is fed into the next digest (`if block: hasher.update(block)`;
an empty previous block is equivalent to no update, so the block is carried as
a plain list initialised to the empty list). The loop in the source has no
bound: `fuel` is an upper bound on the number of rounds, and is instantiated
with `finalLength`, which suffices whenever every digest is non-empty (each
round then grows `key_iv` by at least one byte). -/
def evpkdfGo (hash : List Nat → List Nat) (password salt : List Nat)
    (iterations finalLength : Nat) : Nat → List Nat → List Nat → List Nat
  | 0, keyIv, _ => keyIv
  | fuel + 1, keyIv, block =>
      if keyIv.length < finalLength then
        let b := hashIter hash (iterations - 1) (hash (block ++ password ++ salt))
        evpkdfGo hash password salt iterations finalLength fuel (keyIv ++ b) b
      else keyIv

/-- decrypt.py `_EVPKDF(password, salt, keySize, ivSize, iterations,
hashAlgorithm)`; the hash algorithm is passed as the digest function itself;
`assert iterations > 0` raises AssertionError. Bytes are lists of naturals. -/
def EVPKDF (hash : List Nat → List Nat) (password salt : List Nat)
    (keySize ivSize iterations : Nat) : Except PyError (List Nat × List Nat) :=
  if iterations = 0 then .error .assertionError
  else
    let finalLength := keySize + ivSize
    let keyIv := evpkdfGo hash password salt iterations finalLength finalLength [] []
    .ok (keyIv.take keySize, (keyIv.drop keySize).take ivSize)

/-- block chain as the spec words it: block 0 is hash(password ++ salt) and
block (i+1) is hash(block i ++ password ++ salt). -/
def specBlock (hash : List Nat → List Nat) (password salt : List Nat) : Nat → List Nat
  | 0 => hash (password ++ salt)
  | n + 1 => hash (specBlock hash password salt n ++ password ++ salt)

/-- concatenation of the first `n` blocks of the chain. -/
def specConcatBlocks (hash : List Nat → List Nat) (password salt : List Nat) : Nat → List Nat
  | 0 => []
  | n + 1 => specConcatBlocks hash password salt n ++ specBlock hash password salt n

/-- the digest carried into round `i` of the loop: nothing before round 0,
afterwards the previous block. -/
def specPrevBlock (hash : List Nat → List Nat) (password salt : List Nat) : Nat → List Nat
  | 0 => []
  | n + 1 => specBlock hash password salt n

theorem specPrevBlock_step (hash : List Nat → List Nat) (password salt : List Nat) (i : Nat) :
    hash (specPrevBlock hash password salt i ++ password ++ salt) =
      specBlock hash password salt i := by
  cases i with
  | zero => simp [specPrevBlock, specBlock]
  | succ n => rfl

theorem evpkdfGo_spec (hash : List Nat → List Nat) (password salt : List Nat) (L : Nat) :
    ∀ fuel i n, i ≤ n → n - i ≤ fuel →
      (∀ m, m < n → (specConcatBlocks hash password salt m).length < L) →
      L ≤ (specConcatBlocks hash password salt n).length →
      evpkdfGo hash password salt 1 L fuel
          (specConcatBlocks hash password salt i) (specPrevBlock hash password salt i) =
        specConcatBlocks hash password salt n := by
  intro fuel
  induction fuel with
  | zero =>
    intro i n hin hfuel _ _
    have : i = n := by omega
    subst this
    rfl
  | succ fuel ih =>
    intro i n hin hfuel hmin hn
    by_cases hi : i = n
    · subst hi
      unfold evpkdfGo
      rw [if_neg (by omega)]
    · have hlt : i < n := by omega
      unfold evpkdfGo
      rw [if_pos (hmin i hlt)]
      show evpkdfGo hash password salt 1 L fuel
          (specConcatBlocks hash password salt i ++
            hashIter hash 0 (hash (specPrevBlock hash password salt i ++ password ++ salt)))
          (hashIter hash 0 (hash (specPrevBlock hash password salt i ++ password ++ salt))) =
        specConcatBlocks hash password salt n
      rw [show hashIter hash 0 (hash (specPrevBlock hash password salt i ++ password ++ salt)) =
            specBlock hash password salt i from specPrevBlock_step hash password salt i]
      have h1 : specConcatBlocks hash password salt i ++ specBlock hash password salt i =
          specConcatBlocks hash password salt (i + 1) := rfl
      have h2 : specBlock hash password salt i = specPrevBlock hash password salt (i + 1) := rfl
      rw [h1, h2]
      exact ih (i + 1) n (by omega) (by omega) hmin hn

theorem specBlock_ne_nil (hash : List Nat → List Nat) (password salt : List Nat)
    (hne : ∀ bs, hash bs ≠ []) (m : Nat) :
    specBlock hash password salt m ≠ [] := by
  cases m with
  | zero =>
    show hash (password ++ salt) ≠ []
    exact hne _
  | succ k =>
    show hash (specBlock hash password salt k ++ password ++ salt) ≠ []
    exact hne _

theorem specConcatBlocks_len_ge (hash : List Nat → List Nat) (password salt : List Nat)
    (hne : ∀ bs, hash bs ≠ []) :
    ∀ m, m ≤ (specConcatBlocks hash password salt m).length := by
  intro m
  induction m with
  | zero => simp
  | succ m ih =>
    have hb : 0 < (specBlock hash password salt m).length :=
      List.length_pos.mpr (specBlock_ne_nil hash password salt hne m)
    calc m + 1 ≤ (specConcatBlocks hash password salt m).length + 1 := by omega
    _ ≤ (specConcatBlocks hash password salt m).length +
          (specBlock hash password salt m).length := by omega
    _ = (specConcatBlocks hash password salt (m + 1)).length := by
          simp [specConcatBlocks]

/-! ### C2: EVPKDF with keySize 32, ivSize 16, one iteration -/

/-- C2: with keySize 32, ivSize 16 and a single iteration, `_EVPKDF` returns
the pair (key, iv) where key is the first 32 bytes and iv the next 16 bytes of
the concatenation of the digest chain block 0, block 1, ... with block 0 =
hash(password ++ salt) and block (i+1) = hash(block i ++ password ++ salt),
blocks being concatenated until at least 48 bytes are produced (n is the least
block count reaching 48 bytes). -/
theorem EVPKDF_key_iv (hash : List Nat → List Nat) (password salt : List Nat)
    (hne : ∀ bs, hash bs ≠ []) (n : Nat)
    (hmin : ∀ m, m < n → (specConcatBlocks hash password salt m).length < 48)
    (hn : 48 ≤ (specConcatBlocks hash password salt n).length) :
    EVPKDF hash password salt 32 16 1 =
      .ok ((specConcatBlocks hash password salt n).take 32,
           ((specConcatBlocks hash password salt n).drop 32).take 16) := by
  have hn48 : n ≤ 48 := by
    by_contra hgt
    have h1 := specConcatBlocks_len_ge hash password salt hne 48
    have h2 := hmin 48 (by omega)
    omega
  have hgo := evpkdfGo_spec hash password salt 48 48 0 n (by omega) (by omega) hmin hn
  have hgo2 : evpkdfGo hash password salt 1 48 48 [] [] =
      specConcatBlocks hash password salt n := hgo
  show Except.ok ((evpkdfGo hash password salt 1 48 48 [] []).take 32,
      ((evpkdfGo hash password salt 1 48 48 [] []).drop 32).take 16) = _
  rw [hgo2]

/-- C2 witness: a constant 16-byte digest (the length of an md5 digest); the
least block count reaching 48 bytes is 3. -/
theorem EVPKDF_key_iv_witness :
    EVPKDF (fun _ => List.replicate 16 1) [7] [9] 32 16 1 =
      .ok ((specConcatBlocks (fun _ => List.replicate 16 1) [7] [9] 3).take 32,
           ((specConcatBlocks (fun _ => List.replicate 16 1) [7] [9] 3).drop 32).take 16) :=
  EVPKDF_key_iv (fun _ => List.replicate 16 1) [7] [9]
    (by
      intro bs
      show List.replicate 16 1 ≠ []
      decide) 3 (by decide) (by decide)

/-! ### decrypt.py: envelope decryption -/

/-- the 8-byte magic prefix b"Salted__" as byte values. -/
def SALTED_MAGIC : List Nat := [0x53, 0x61, 0x6c, 0x74, 0x65, 0x64, 0x5f, 0x5f]

/-- Cryptodome Crypto.Util.Padding.unpad with style pkcs7, as invoked by
`_decrypt(plaintext, 16, style="pkcs7")`: reject an empty input, an input not
aligned to the block size, a padding length outside 1..min(blockSize, length),
or trailing bytes that are not paddingLen copies of paddingLen; otherwise
strip the padding. -/
def unpad (padded : List Nat) (blockSize : Nat) : Except PyError (List Nat) :=
  if padded.length = 0 then .error (.valueError "Zero-length input cannot be unpadded")
  else if padded.length % blockSize ≠ 0 then .error (.valueError "Input data is not padded")
  else if padded.getLastD 0 < 1 ∨ padded.getLastD 0 > min blockSize padded.length then
    .error (.valueError "Padding is incorrect.")
  else if padded.drop (padded.length - padded.getLastD 0) ≠
      List.replicate (padded.getLastD 0) (padded.getLastD 0) then
    .error (.valueError "PKCS#7 padding is incorrect.")
  else .ok (padded.take (padded.length - padded.getLastD 0))

/-- decrypt.py `_decrypt(ciphertext, key, iv)` (the Cryptodome branch, the
default): `AES.new` raises ValueError on a bad key or iv length,
`cipher.decrypt` raises ValueError when the ciphertext is not aligned to the
16-byte block size, then `unpad(plaintext, 16, style="pkcs7")` validates the
padding. The CBC block-cipher core itself is the abstract function
`aesDec key iv ciphertext`. -/
def decrypt_raw (aesDec : List Nat → List Nat → List Nat → List Nat)
    (ciphertext key iv : List Nat) : Except PyError (List Nat) :=
  if ¬ (key.length = 16 ∨ key.length = 24 ∨ key.length = 32) then
    .error (.valueError "Incorrect AES key length")
  else if iv.length ≠ 16 then .error (.valueError "Incorrect IV length")
  else if ciphertext.length % 16 ≠ 0 then
    .error (.valueError "Data must be padded to 16 byte boundary in CBC mode")
  else unpad (aesDec key iv ciphertext) 16

/-- result of `decrypt`: the input returned unchanged (payload was not an
encrypted envelope), or the structured value parsed from the decrypted
plaintext (represented opaquely). -/
inductive DecOut where
  | unchanged (s : String)
  | parsed (v : String)
  deriving DecidableEq, Repr

/-- decrypt.py `decrypt(data, *pw_args)`. The collaborators are abstracted as
parameters: `findKey` is the outcome of `_find_enckey(*pw_args)` (the password
utf-8 bytes or a raised error), `b64` is base64 decoding, `hash` the md5
digest function used by `_EVPKDF`, `aesDec` the AES-CBC core and `loads` JSON
parsing. The leading-signature check, the `assert` of the b"Salted__" magic
(a bare AssertionError), the salt extraction `encrypted[8:16]`, the key/iv
derivation and the decryption of `encrypted[16:]` follow the source. -/
def decrypt (findKey : Except PyError (List Nat)) (b64 : String → Except PyError (List Nat))
    (hash : List Nat → List Nat) (aesDec : List Nat → List Nat → List Nat → List Nat)
    (loads : List Nat → Except PyError String) (data : String) : Except PyError DecOut :=
  if data.take 3 ≠ "U2F" then .ok (.unchanged data)
  else
    match findKey with
    | .error e => .error e
    | .ok password =>
      match b64 data with
      | .error e => .error e
      | .ok encrypted =>
        if encrypted.take 8 ≠ SALTED_MAGIC then .error .assertionError
        else
          match EVPKDF hash password ((encrypted.drop 8).take 8) 32 16 1 with
          | .error e => .error e
          | .ok (key, iv) =>
            match decrypt_raw aesDec (encrypted.drop 16) key iv with
            | .error e => .error e
            | .ok plaintext =>
              match loads plaintext with
              | .error e => .error e
              | .ok v => .ok (.parsed v)

/-! ### C7: a payload without the U2F signature is returned unchanged -/

/-- C7: when the leading 3 characters of the input differ from the
salted-payload signature U2F, `decrypt` returns the input unchanged, whatever
the key discovery, base64 decoder, digest, cipher and parser do (in
particular a failing key discovery or decoder is never consulted). -/
theorem decrypt_not_encrypted_identity
    (findKey : Except PyError (List Nat)) (b64 : String → Except PyError (List Nat))
    (hash : List Nat → List Nat) (aesDec : List Nat → List Nat → List Nat → List Nat)
    (loads : List Nat → Except PyError String) (data : String)
    (h : data.take 3 ≠ "U2F") :
    decrypt findKey b64 hash aesDec loads data = .ok (.unchanged data) := by
  unfold decrypt
  rw [if_pos h]

/-- C7 witness: a plain payload passes through even when every collaborator
would fail. -/
theorem decrypt_not_encrypted_identity_witness :
    decrypt (.error (.decryptException "No enc key")) (fun _ => .error .assertionError)
      (fun _ => []) (fun _ _ _ => []) (fun _ => .error (.valueError "bad json"))
      "hello" = .ok (.unchanged "hello") :=
  decrypt_not_encrypted_identity _ _ _ _ _ "hello" (by decide)

/-! ### C6: validation failures in decrypt surface as low-level faults -/

theorem unpad_error_valueError (padded : List Nat) (bs : Nat) (e : PyError)
    (h : unpad padded bs = .error e) : ∃ m, e = .valueError m := by
  unfold unpad at h
  split at h
  · exact ⟨_, (Except.error.injEq _ _).mp h |>.symm⟩
  · split at h
    · exact ⟨_, (Except.error.injEq _ _).mp h |>.symm⟩
    · split at h
      · exact ⟨_, (Except.error.injEq _ _).mp h |>.symm⟩
      · split at h
        · exact ⟨_, (Except.error.injEq _ _).mp h |>.symm⟩
        · exact absurd h (by simp)

/-- C6 counterexample: an encrypted envelope (leading characters U2F) whose
base64 payload does not begin with the b"Salted__" magic makes `decrypt` fail
with a bare AssertionError, which is not the DecryptException of the module
error taxonomy, refuting the claim that validation failures surface as a
"decryption failed" DecryptException. -/
theorem decrypt_bad_magic_assertion_cex :
    decrypt (.ok [1]) (fun _ => .ok [1, 2, 3, 4, 5, 6, 7, 8])
        (fun _ => List.replicate 16 0) (fun _ _ c => c) (fun _ => .ok "")
        "U2FX" = .error .assertionError ∧
      ∀ m, (PyError.assertionError ≠ PyError.decryptException m) := by
  constructor
  · rfl
  · intro m h
    cases h

/-- C6 amended: validation failures during `decrypt` of a U2F envelope
propagate as the underlying low-level Python faults rather than as
DecryptException: a payload without the b"Salted__" magic raises a bare
AssertionError; a ciphertext not aligned to the 16-byte block raises the
cipher ValueError; invalid PKCS#7 padding raises the unpad ValueError. None
of these is a DecryptException (that exception is only raised by key
discovery). -/
theorem decrypt_validation_low_level
    (data : String) (pw enc key iv : List Nat)
    (hash : List Nat → List Nat) (aesDec : List Nat → List Nat → List Nat → List Nat)
    (loads : List Nat → Except PyError String)
    (hdata : data.take 3 = "U2F")
    (hkdf : EVPKDF hash pw ((enc.drop 8).take 8) 32 16 1 = .ok (key, iv))
    (hk : key.length = 32) (hiv : iv.length = 16) :
    (enc.take 8 ≠ SALTED_MAGIC →
      decrypt (.ok pw) (fun _ => .ok enc) hash aesDec loads data = .error .assertionError) ∧
    (enc.take 8 = SALTED_MAGIC → (enc.drop 16).length % 16 ≠ 0 →
      decrypt (.ok pw) (fun _ => .ok enc) hash aesDec loads data =
        .error (.valueError "Data must be padded to 16 byte boundary in CBC mode")) ∧
    (∀ e, enc.take 8 = SALTED_MAGIC → (enc.drop 16).length % 16 = 0 →
      unpad (aesDec key iv (enc.drop 16)) 16 = .error e →
      decrypt (.ok pw) (fun _ => .ok enc) hash aesDec loads data = .error e ∧
        ∀ m, e ≠ .decryptException m) := by
  have hcond : ¬ (data.take 3 ≠ "U2F") := by simp [hdata]
  have hraw : ∀ r : Except PyError (List Nat),
      decrypt_raw aesDec (enc.drop 16) key iv = r →
      enc.take 8 = SALTED_MAGIC →
      decrypt (.ok pw) (fun _ => .ok enc) hash aesDec loads data =
        (match r with
          | .error e => .error e
          | .ok plaintext =>
            match loads plaintext with
            | .error e => .error e
            | .ok v => .ok (.parsed v)) := by
    intro r hr hmag
    unfold decrypt
    rw [if_neg hcond]
    dsimp only
    rw [if_neg (by simp [hmag]), hkdf]
    dsimp only
    rw [hr]
  refine ⟨?_, ?_, ?_⟩
  · intro hmag
    unfold decrypt
    rw [if_neg hcond]
    dsimp only
    rw [if_pos hmag]
  · intro hmag halign
    have hr : decrypt_raw aesDec (enc.drop 16) key iv =
        .error (.valueError "Data must be padded to 16 byte boundary in CBC mode") := by
      unfold decrypt_raw
      rw [if_neg (by rw [hk]; simp), if_neg (by rw [hiv]; simp), if_pos halign]
    exact hraw _ hr hmag
  · intro e hmag halign hu
    constructor
    · have hr : decrypt_raw aesDec (enc.drop 16) key iv = .error e := by
        unfold decrypt_raw
        rw [if_neg (by rw [hk]; simp), if_neg (by rw [hiv]; simp),
          if_neg (by rw [halign]; simp), hu]
      exact hraw _ hr hmag
    · obtain ⟨m, rfl⟩ := unpad_error_valueError _ _ _ hu
      intro m2 h
      cases h

/-- C6 amended witness: concrete bad-magic envelope under a constant 16-byte
digest; the derived key and iv have lengths 32 and 16 and the bad-magic branch
produces the AssertionError. -/
theorem decrypt_validation_low_level_witness :
    ([1, 2, 3, 4, 5, 6, 7, 8] : List Nat).take 8 ≠ SALTED_MAGIC ∧
    decrypt (.ok [1]) (fun _ => .ok [1, 2, 3, 4, 5, 6, 7, 8])
        (fun _ => List.replicate 16 0) (fun _ _ c => c) (fun _ => .ok "")
        "U2FY" = .error .assertionError :=
  ⟨by decide,
    (decrypt_validation_low_level "U2FY" [1] [1, 2, 3, 4, 5, 6, 7, 8]
      (List.replicate 32 0) (List.replicate 16 0)
      (fun _ => List.replicate 16 0) (fun _ _ c => c) (fun _ => .ok "")
      (by decide) (by rfl) (by decide) (by decide)).1 (by decide)⟩

/-! ### decrypt.py: key discovery `_find_enckey` -/

/-- membership test of a key in the page mapping (Python dict as an
association list with pairwise-distinct keys; values restricted to the
strings relevant to key discovery). -/
def hasKey (d : List (String × String)) (k : String) : Bool :=
  d.any (fun p => p.1 == k)

/-- Python `del data_obj[k]`: removes the entry (the first occurrence; dict
keys are unique) and keeps the order of the rest. -/
def delKey : List (String × String) → String → List (String × String)
  | [], _ => []
  | p :: rest, k => if p.1 == k then rest else p :: delKey rest k

/-- Python `data_obj.get(k)`. -/
def lookupVal (d : List (String × String)) (k : String) : Option String :=
  (d.find? (fun p => p.1 == k)).map (fun p => p.2)

/-- Python `keys.index(k)` wrapped in its try/except: the position of the
first occurrence, or none when absent (the ValueError is caught). -/
def indexOfKey? (k : String) : List String → Option Nat
  | [] => none
  | a :: rest => if a == k then some 0 else (indexOfKey? k rest).map (fun i => i + 1)

/-- Python `"".join(parts)`. -/
def strJoin : List String → String
  | [] => ""
  | s :: rest => s ++ strJoin rest

/-- the second strategy of `_find_enckey` (enc key in a single unexpected
key): the for/else loop appends the first value whose key is not one of the
two reserved names and breaks on a second one, so it returns a password
exactly when the non-reserved part of the mapping is a singleton whose value
is non-empty (truthy). -/
def singletonPath (d : List (String × String)) : Option String :=
  match (d.filter (fun p => p.1 != "context" && p.1 != "plugins")).map (fun p => p.2) with
  | [v] => if v ≠ "" then some v else none
  | _ => none

/-- the third strategy of `_find_enckey` (enc key as data in the only 4 keys
after the plugins marker): locate the marker key, slice up to the next 5 keys
for error checking, resolve them against the mapping, and return the in-order
concatenation when exactly 4 resolve and all are non-empty (truthy). -/
def fixedOffsetPath (d : List (String × String)) : Option String :=
  match indexOfKey? "plugins" (d.map Prod.fst) with
  | none => none
  | some i =>
    if ((((d.map Prod.fst).drop (i + 1)).take 5).map (lookupVal d)).length == 4 &&
        ((((d.map Prod.fst).drop (i + 1)).take 5).map (lookupVal d)).all
          (fun v => v.getD "" != "") then
      some (strJoin (((((d.map Prod.fst).drop (i + 1)).take 5).map (lookupVal d)).map
        (fun v => v.getD "")))
    else none

/-- decrypt.py `_find_enckey(data_obj, soup)`, returning the discovery result
together with the final state of the caller mapping (the source mutates
`data_obj` in place). The first strategy (the `_cs`/`_cr` descriptor pair,
entered exactly when both keys are present) and the fourth strategy (mining
main.js via the soup, reached when the earlier strategies fall through; it
raises DecryptException when nothing matches) do not depend on the dissected
mapping shape and are abstracted as the `structured` and `scriptMining`
outcomes. Before the third strategy the source deletes the `context` key from
the caller mapping. -/
def find_enckey (structured scriptMining : Except PyError String)
    (d : List (String × String)) : Except PyError String × List (String × String) :=
  if hasKey d "_cs" && hasKey d "_cr" then (structured, d)
  else
    match singletonPath d with
    | some v => (.ok v, d)
    | none =>
      match fixedOffsetPath (delKey d "context") with
      | some v => (.ok v, delKey d "context")
      | none => (scriptMining, delKey d "context")

theorem find?_append_of_none {α : Type} (p : α → Bool) (xs ys : List α)
    (h : ∀ x ∈ xs, p x = false) :
    List.find? p (xs ++ ys) = List.find? p ys := by
  induction xs with
  | nil => rfl
  | cons a rest ih =>
    have ha := h a (by simp)
    simp only [List.cons_append, List.find?, ha]
    exact ih (fun x hx => h x (by simp [hx]))

theorem indexOfKey?_append_cons (k : String) (xs ys : List String)
    (h : ∀ x ∈ xs, x ≠ k) :
    indexOfKey? k (xs ++ k :: ys) = some xs.length := by
  induction xs with
  | nil => simp [indexOfKey?]
  | cons a rest ih =>
    have ha : ¬ ((a == k) = true) := by simp [h a (by simp)]
    show indexOfKey? k (a :: (rest ++ k :: ys)) = some (a :: rest).length
    simp only [indexOfKey?]
    rw [if_neg ha, ih (fun x hx => h x (by simp [hx]))]
    rfl

theorem indexOfKey?_eq_none (k : String) (l : List String) (h : k ∉ l) :
    indexOfKey? k l = none := by
  induction l with
  | nil => rfl
  | cons a rest ih =>
    have ha : (a == k) = false := by
      simp only [beq_eq_false_iff_ne, ne_eq]
      intro he
      exact h (by simp [he])
    simp only [indexOfKey?, ha, Bool.false_eq_true, if_false]
    rw [ih (fun hm => h (by simp [hm]))]
    rfl

theorem lookupVal_middle (xs ys : List (String × String)) (k v : String)
    (hxs : ∀ q ∈ xs, q.1 ≠ k) :
    lookupVal (xs ++ (k, v) :: ys) k = some v := by
  unfold lookupVal
  rw [find?_append_of_none _ xs _ (fun q hq => by simp [hxs q hq])]
  simp [List.find?]

theorem mem_delKey_keys (d : List (String × String)) (c k : String)
    (h : k ∈ (delKey d c).map Prod.fst) : k ∈ d.map Prod.fst := by
  induction d with
  | nil => simp [delKey] at h
  | cons p rest ih =>
    by_cases hp : (p.1 == c) = true
    · rw [delKey, if_pos hp] at h
      simp only [List.map_cons, List.mem_cons]
      exact Or.inr h
    · rw [delKey, if_neg (by simp [hp])] at h
      simp only [List.map_cons, List.mem_cons] at h ⊢
      rcases h with h | h
      · exact Or.inl h
      · exact Or.inr (ih h)

theorem delKey_length_of_hasKey (d : List (String × String)) (k : String)
    (h : hasKey d k = true) : (delKey d k).length + 1 = d.length := by
  induction d with
  | nil => simp [hasKey] at h
  | cons p rest ih =>
    by_cases hp : (p.1 == k) = true
    · rw [delKey, if_pos hp]
      rfl
    · have h' : hasKey rest k = true := by
        simpa [hasKey, List.any_cons, hp] using h
      have := ih h'
      rw [delKey, if_neg (by simp [hp])]
      simp only [List.length_cons]
      omega

theorem find_enckey_stage3_some (structured scriptMining : Except PyError String)
    (d : List (String × String)) (v : String)
    (h1 : (hasKey d "_cs" && hasKey d "_cr") = false)
    (h2 : singletonPath d = none)
    (hfo : fixedOffsetPath (delKey d "context") = some v) :
    find_enckey structured scriptMining d = (.ok v, delKey d "context") := by
  unfold find_enckey
  rw [h1]
  simp only [Bool.false_eq_true, if_false]
  rw [h2]
  dsimp only
  rw [hfo]

theorem find_enckey_stage3_none (structured scriptMining : Except PyError String)
    (d : List (String × String))
    (h1 : (hasKey d "_cs" && hasKey d "_cr") = false)
    (h2 : singletonPath d = none)
    (hfo : fixedOffsetPath (delKey d "context") = none) :
    find_enckey structured scriptMining d = (scriptMining, delKey d "context") := by
  unfold find_enckey
  rw [h1]
  simp only [Bool.false_eq_true, if_false]
  rw [h2]
  dsimp only
  rw [hfo]

/-! ### C8: the fixed-offset key-discovery path -/

/-- C8: on a mapping where the structured `_cs`/`_cr` path and the
singleton-key path do not apply, if (after the `context` deletion performed by
this stage) the `plugins` marker key is present and followed by exactly 4
keys with non-empty values, key discovery returns the in-order concatenation
of those 4 values; if the marker key is absent, this path falls through to
the script-mining strategy without raising. -/
theorem find_enckey_fixed_offset
    (structured scriptMining : Except PyError String) (d pre : List (String × String))
    (vp k1 v1 k2 v2 k3 v3 k4 v4 : String)
    (h1 : (hasKey d "_cs" && hasKey d "_cr") = false)
    (h2 : singletonPath d = none) :
    (delKey d "context" =
        pre ++ ("plugins", vp) :: (k1, v1) :: (k2, v2) :: (k3, v3) :: (k4, v4) :: [] →
      ((delKey d "context").map Prod.fst).Nodup →
      v1 ≠ "" → v2 ≠ "" → v3 ≠ "" → v4 ≠ "" →
      find_enckey structured scriptMining d =
        (.ok (strJoin [v1, v2, v3, v4]), delKey d "context")) ∧
    ("plugins" ∉ d.map Prod.fst →
      find_enckey structured scriptMining d = (scriptMining, delKey d "context")) := by
  constructor
  · intro hdel hnd hv1 hv2 hv3 hv4
    have hkeys : (delKey d "context").map Prod.fst =
        pre.map Prod.fst ++ "plugins" :: k1 :: k2 :: k3 :: k4 :: [] := by
      rw [hdel]
      simp
    rw [hkeys, List.nodup_append] at hnd
    obtain ⟨-, hrest, hdisj⟩ := hnd
    obtain ⟨hplug, hd1⟩ := List.pairwise_cons.mp hrest
    obtain ⟨hk1d, hd2⟩ := List.pairwise_cons.mp hd1
    obtain ⟨hk2d, hd3⟩ := List.pairwise_cons.mp hd2
    obtain ⟨hk3d, -⟩ := List.pairwise_cons.mp hd3
    have hl1 : lookupVal (delKey d "context") k1 = some v1 := by
      rw [hdel, show pre ++ ("plugins", vp) :: (k1, v1) :: (k2, v2) :: (k3, v3) :: (k4, v4) :: [] =
        (pre ++ [("plugins", vp)]) ++ (k1, v1) :: (k2, v2) :: (k3, v3) :: (k4, v4) :: [] by simp]
      refine lookupVal_middle _ _ _ _ ?_
      intro q hq
      rcases List.mem_append.mp hq with hq | hq
      · intro he
        exact hdisj (List.mem_map_of_mem Prod.fst hq) (by rw [he]; simp)
      · simp only [List.mem_singleton] at hq
        subst hq
        exact hplug k1 (by simp)
    have hl2 : lookupVal (delKey d "context") k2 = some v2 := by
      rw [hdel, show pre ++ ("plugins", vp) :: (k1, v1) :: (k2, v2) :: (k3, v3) :: (k4, v4) :: [] =
        (pre ++ [("plugins", vp), (k1, v1)]) ++ (k2, v2) :: (k3, v3) :: (k4, v4) :: [] by simp]
      refine lookupVal_middle _ _ _ _ ?_
      intro q hq
      rcases List.mem_append.mp hq with hq | hq
      · intro he
        exact hdisj (List.mem_map_of_mem Prod.fst hq) (by rw [he]; simp)
      · simp only [List.mem_cons, List.not_mem_nil, or_false] at hq
        rcases hq with hq | hq
        · subst hq
          exact hplug k2 (by simp)
        · subst hq
          exact hk1d k2 (by simp)
    have hl3 : lookupVal (delKey d "context") k3 = some v3 := by
      rw [hdel, show pre ++ ("plugins", vp) :: (k1, v1) :: (k2, v2) :: (k3, v3) :: (k4, v4) :: [] =
        (pre ++ [("plugins", vp), (k1, v1), (k2, v2)]) ++ (k3, v3) :: (k4, v4) :: [] by simp]
      refine lookupVal_middle _ _ _ _ ?_
      intro q hq
      rcases List.mem_append.mp hq with hq | hq
      · intro he
        exact hdisj (List.mem_map_of_mem Prod.fst hq) (by rw [he]; simp)
      · simp only [List.mem_cons, List.not_mem_nil, or_false] at hq
        rcases hq with hq | hq | hq
        · subst hq
          exact hplug k3 (by simp)
        · subst hq
          exact hk1d k3 (by simp)
        · subst hq
          exact hk2d k3 (by simp)
    have hl4 : lookupVal (delKey d "context") k4 = some v4 := by
      rw [hdel, show pre ++ ("plugins", vp) :: (k1, v1) :: (k2, v2) :: (k3, v3) :: (k4, v4) :: [] =
        (pre ++ [("plugins", vp), (k1, v1), (k2, v2), (k3, v3)]) ++ (k4, v4) :: [] by simp]
      refine lookupVal_middle _ _ _ _ ?_
      intro q hq
      rcases List.mem_append.mp hq with hq | hq
      · intro he
        exact hdisj (List.mem_map_of_mem Prod.fst hq) (by rw [he]; simp)
      · simp only [List.mem_cons, List.not_mem_nil, or_false] at hq
        rcases hq with hq | hq | hq | hq
        · subst hq
          exact hplug k4 (by simp)
        · subst hq
          exact hk1d k4 (by simp)
        · subst hq
          exact hk2d k4 (by simp)
        · subst hq
          exact hk3d k4 (by simp)
    have hKne : ∀ x ∈ pre.map Prod.fst, x ≠ "plugins" := by
      intro x hx he
      exact hdisj hx (by rw [he]; simp)
    have hidx : indexOfKey? "plugins" ((delKey d "context").map Prod.fst) =
        some (pre.map Prod.fst).length := by
      rw [hkeys]
      exact indexOfKey?_append_cons "plugins" _ _ hKne
    have hfo : fixedOffsetPath (delKey d "context") = some (strJoin [v1, v2, v3, v4]) := by
      unfold fixedOffsetPath
      rw [hidx]
      dsimp only
      rw [hkeys]
      rw [show pre.map Prod.fst ++ "plugins" :: k1 :: k2 :: k3 :: k4 :: [] =
        (pre.map Prod.fst ++ ["plugins"]) ++ k1 :: k2 :: k3 :: k4 :: [] by simp]
      rw [show (pre.map Prod.fst).length + 1 = (pre.map Prod.fst ++ ["plugins"]).length by simp]
      rw [List.drop_left]
      have hparts : ((k1 :: k2 :: k3 :: k4 :: []).take 5).map (lookupVal (delKey d "context")) =
          [some v1, some v2, some v3, some v4] := by
        show [lookupVal (delKey d "context") k1, lookupVal (delKey d "context") k2,
          lookupVal (delKey d "context") k3, lookupVal (delKey d "context") k4] = _
        rw [hl1, hl2, hl3, hl4]
      rw [hparts]
      have hcond : (([some v1, some v2, some v3, some v4].length == 4) &&
          ([some v1, some v2, some v3, some v4].all (fun v => v.getD "" != ""))) = true := by
        simp [hv1, hv2, hv3, hv4]
      rw [if_pos hcond]
      rfl
    exact find_enckey_stage3_some _ _ _ _ h1 h2 hfo
  · intro hnp
    have hnp2 : "plugins" ∉ ((delKey d "context").map Prod.fst) :=
      fun hm => hnp (mem_delKey_keys d "context" "plugins" hm)
    have hfo : fixedOffsetPath (delKey d "context") = none := by
      unfold fixedOffsetPath
      rw [indexOfKey?_eq_none _ _ hnp2]
    exact find_enckey_stage3_none _ _ _ h1 h2 hfo

/-- C8 witness: a concrete mapping with the marker first and exactly 4 keys
after it; the discovery returns the in-order concatenation. -/
theorem find_enckey_fixed_offset_witness :
    find_enckey (.error (.decryptException "No enc key")) (.error (.decryptException "No enc key"))
        [("plugins", "P"), ("a", "1"), ("b", "2"), ("c", "3"), ("e", "4")] =
      (.ok (strJoin ["1", "2", "3", "4"]),
        delKey [("plugins", "P"), ("a", "1"), ("b", "2"), ("c", "3"), ("e", "4")] "context") :=
  (find_enckey_fixed_offset (.error (.decryptException "No enc key"))
      (.error (.decryptException "No enc key"))
      [("plugins", "P"), ("a", "1"), ("b", "2"), ("c", "3"), ("e", "4")] []
      "P" "a" "1" "b" "2" "c" "3" "e" "4" (by decide) (by decide)).1
    (by decide) (by decide) (by decide) (by decide) (by decide) (by decide)

/-! ### C10: key discovery deletes the context key from the caller mapping -/

/-- C10: when the structured path and the singleton path both fail to return a
password, `_find_enckey` deletes the `context` key from the caller mapping
before scanning for the marker key: the mapping after the call is the input
with its `context` entry removed, and in particular (when `context` was
present) differs from the input, so the discovery input passed to decrypt is
not preserved across the call. -/
theorem find_enckey_mutates_input (structured scriptMining : Except PyError String)
    (d : List (String × String))
    (h1 : (hasKey d "_cs" && hasKey d "_cr") = false)
    (h2 : singletonPath d = none)
    (hctx : hasKey d "context" = true) :
    (find_enckey structured scriptMining d).2 = delKey d "context" ∧
    (find_enckey structured scriptMining d).2 ≠ d := by
  have hsnd : (find_enckey structured scriptMining d).2 = delKey d "context" := by
    cases hfo : fixedOffsetPath (delKey d "context") with
    | none => rw [find_enckey_stage3_none _ _ _ h1 h2 hfo]
    | some v => rw [find_enckey_stage3_some _ _ _ _ h1 h2 hfo]
  refine ⟨hsnd, ?_⟩
  rw [hsnd]
  intro heq
  have hlen := congrArg List.length heq
  have hlk := delKey_length_of_hasKey d "context" hctx
  omega

/-- C10 witness: a concrete mapping holding a `context` entry and an empty
non-reserved value (so the first two strategies fall through). -/
theorem find_enckey_mutates_input_witness :
    (find_enckey (.error (.decryptException "No enc key"))
        (.error (.decryptException "No enc key")) [("context", "C"), ("x", "")]).2 =
      delKey [("context", "C"), ("x", "")] "context" ∧
    (find_enckey (.error (.decryptException "No enc key"))
        (.error (.decryptException "No enc key")) [("context", "C"), ("x", "")]).2 ≠
      [("context", "C"), ("x", "")] :=
  find_enckey_mutates_input _ _ [("context", "C"), ("x", "")]
    (by decide) (by decide) (by decide)
